import Mathlib

/-!
Shallow embedding of the scimilarity core (`cell_embedding.py` and
`zarr_data_models.py`): batched cell embedding with numerical-safety checks,
the kNN index adapter, the multi-source zarr dataset view, and the weighted
sampler builder.  Machine floats are idealised as exact rationals/reals; the
three float non-values relevant to `np.isnan` are modelled explicitly by
`FVal`.
-/

namespace Scimilarity

/-- A floating-point value as produced by the encoder: NaN, infinity, or a
finite number (idealised as a rational).  `np.isnan` distinguishes exactly
the NaN case. -/
inductive FVal where
  | nan : FVal
  | inf : FVal
  | fin : ℚ → FVal
deriving DecidableEq

/-- `np.isnan` on one entry: true only for NaN, false for infinity and for
every finite value. -/
def FVal.isNan : FVal → Bool
  | .nan => true
  | _ => false

/-- The state of an hnswlib index as visible through this adapter: the
construction parameters (`space`, `dim`), the stored corpus, and the
query-time search-breadth parameter `ef` mutated by `set_ef`. -/
structure HnswIndex where
  space : String
  dim : ℕ
  items : List (List ℚ)
  ef : ℕ
deriving DecidableEq

/-- The fields of `CellEmbedding` relevant to index loading and querying:
the optional kNN index (`self.knn`) and the model's latent dimension. -/
structure CellEmbedding where
  knn : Option HnswIndex
  latent_dim : ℕ
deriving DecidableEq

/-- `CellEmbedding.load_knn_index`: if the file exists, a fresh cosine index
of the model's latent dimension is created and loaded from it; otherwise a
warning is printed and `self.knn` is set to `None`.  The filesystem is the
predicate `isfile`, `loadIdx` gives the corpus stored in an existing index
file (hnswlib's default `ef` after `load_index` is 10), and the second
component of the result is the list of warnings printed. -/
def load_knn_index (isfile : String → Bool) (loadIdx : String → List (List ℚ))
    (s : CellEmbedding) (knn_file : String) : CellEmbedding × List String :=
  if isfile knn_file then
    ({ s with knn := some { space := "cosine", dim := s.latent_dim,
                            items := loadIdx knn_file, ef := 10 } }, [])
  else
    ({ s with knn := none }, ["Warning: No KNN index found at " ++ knn_file])

/-- `CellEmbedding.get_nearest_neighbors`: raises when no index is loaded;
otherwise calls `set_ef ef` on the index (mutating its state) and queries
it.  The hnswlib query itself is the opaque, read-only function `query`;
the returned pair is the updated object state and the query result. -/
def get_nearest_neighbors
    (query : HnswIndex → List (List ℚ) → ℕ → List (List ℕ) × List (List ℚ))
    (s : CellEmbedding) (embeddings : List (List ℚ)) (k ef : ℕ) :
    Except String (CellEmbedding × (List (List ℕ) × List (List ℚ))) :=
  match s.knn with
  | none => .error "kNN is not initialized. If no kNN index file is found, run the method build_knn."
  | some idx =>
      .ok ({ s with knn := some { idx with ef := ef } },
           query { idx with ef := ef } embeddings k)

/-- Resolution of the `num_cells` argument of `get_embeddings`: the sentinel
`-1` means all rows of the input. -/
def resolveNumCells (X : List (List ℚ)) (num_cells : Int) : Int :=
  if num_cells = -1 then (X.length : Int) else num_cells

/-- Number of chunk start offsets produced by `range(0, n, b)` for `b > 0`:
the ceiling of `n / b`. -/
def divCeil (n b : ℕ) : ℕ := (n + b - 1) / b

/-- `CellEmbedding.get_embeddings`, for a dense matrix `X` given as a list
of rows.  The feed-forward encoder is the per-row function `m` (a batch is
encoded row by row).  Mirrors the source: resolve `num_cells`, loop over
`range(0, num_cells, buffer_size)` taking slices `X[i : i + buffer_size]`
(Python slices clamp at the end of the list), raise if no batch was formed,
stack the parts, and raise if `np.isnan` detects a NaN anywhere.  A zero
`buffer_size` makes Python's `range` itself raise. -/
def get_embeddings (m : List ℚ → List FVal) (X : List (List ℚ))
    (num_cells : Int) (buffer_size : ℕ) : Except String (List (List FVal)) :=
  let nc : Int := resolveNumCells X num_cells
  if buffer_size = 0 then .error "range() arg 3 must not be zero"
  else
    let starts := List.range' 0 (divCeil nc.toNat buffer_size) buffer_size
    let parts := starts.map (fun i => ((X.drop i).take buffer_size).map m)
    if parts.isEmpty then .error "No valid cells detected."
    else
      let embedding := parts.flatten
      if embedding.any (fun row => row.any FVal.isNan) then
        .error "NaN detected in embeddings."
      else .ok embedding

/-! ### zarr_data_models.py -/

/-- `scDatasetFromList.__init__`: `self.ncells = sum(self.ncells_list)`,
where `ncells_list` holds the per-dataset row counts `data.shape[0]`. -/
def ncells (ncells_list : List ℕ) : ℕ := ncells_list.sum

/-- `self.data_idx = [n for n in range(len(ncells_list)) for i in
range(ncells_list[n])]`: the dataset index of each global row. -/
def data_idx (ncells_list : List ℕ) : List ℕ :=
  (List.range ncells_list.length).flatMap
    (fun n => List.replicate (ncells_list.getD n 0) n)

/-- `self.cell_idx = [i for n in range(len(ncells_list)) for i in
range(ncells_list[n])]`: the within-dataset row offset of each global row. -/
def cell_idx (ncells_list : List ℕ) : List ℕ :=
  (List.range ncells_list.length).flatMap
    (fun n => List.range (ncells_list.getD n 0))

/-- `pd.crosstab(vec1, vec2)` at one category pair: the number of rows where
the two categories co-occur. -/
def crosstabCount (vec1 vec2 : List String) (p : String × String) : ℕ :=
  (vec1.zip vec2).count p

/-- `MetricLearningZarrDataModule.two_way_weighting` at one category pair:
`(1 / counts).replace(np.inf, 0)` — the reciprocal co-occurrence count,
with the infinite reciprocal of a zero count replaced by 0. -/
def two_way_weighting (vec1 vec2 : List String) (p : String × String) : ℚ :=
  if crosstabCount vec1 vec2 p = 0 then 0
  else 1 / (crosstabCount vec1 vec2 p : ℚ)

/-- `get_sampler_weights(labels)` (studies absent): weight
`1.0 / class_sample_count[t]` for each `t` in `labels`. -/
def get_sampler_weights (labels : List String) : List ℚ :=
  labels.map (fun t => 1 / (labels.count t : ℚ))

/-- `get_sampler_weights(labels, studies)`: weight `1.0 /
class_sample_count[labels[i]] / np.log(study_sample_count[studies[i]])` for
each row `i`.  `np.log` is the real natural logarithm. -/
noncomputable def get_sampler_weights_with_studies
    (labels studies : List String) : List ℝ :=
  (List.range labels.length).map (fun i =>
    1 / (labels.count (labels.getD i "") : ℝ)
      / Real.log (studies.count (studies.getD i "")))

/-! ### Helper lemmas about chunked slicing -/

lemma range'_cons (s c b : ℕ) :
    List.range' s (c + 1) b = s :: List.range' (s + b) c b := by
  simp [List.range']

lemma flatten_chunks {α : Type _} (X : List α) (b : ℕ) (c s : ℕ) :
    ((List.range' s c b).map (fun i => (X.drop i).take b)).flatten
      = (X.drop s).take (c * b) := by
  induction c generalizing s with
  | zero => simp
  | succ c ih =>
      rw [range'_cons, List.map_cons, List.flatten_cons, ih (s + b),
        ← List.drop_drop, Nat.succ_mul, Nat.add_comm (c * b) b,
        List.take_add]

lemma flatten_map_chunks {α β : Type _} (m : α → β) (X : List α) (c b : ℕ) :
    ((List.range' 0 c b).map (fun i => ((X.drop i).take b).map m)).flatten
      = (X.take (c * b)).map m := by
  have h : (fun i => ((X.drop i).take b).map m)
      = (List.map m) ∘ (fun i => (X.drop i).take b) := rfl
  rw [h, ← List.map_map, ← List.map_flatten, flatten_chunks, List.drop_zero]

lemma le_mul_divCeil (n b : ℕ) (hb : b ≠ 0) : n ≤ b * divCeil n b := by
  rcases Nat.eq_zero_or_pos n with h | h
  · simp [h]
  · have hq := Nat.div_add_mod (n + b - 1) b
    have hr : (n + b - 1) % b < b := Nat.mod_lt _ (Nat.pos_of_ne_zero hb)
    unfold divCeil
    omega

lemma divCeil_eq_zero_iff (n b : ℕ) (hb : b ≠ 0) : divCeil n b = 0 ↔ n = 0 := by
  constructor
  · intro h
    have := le_mul_divCeil n b hb
    rw [h] at this
    omega
  · intro h
    subst h
    unfold divCeil
    exact Nat.div_eq_of_lt (by omega)

/-- Branch-level description of `get_embeddings` for a nonzero buffer size:
the call raises `EmptyInput` exactly when no chunk start was generated
(resolved row count 0), and otherwise embeds the rows covered by the chunk
windows, raising on a NaN entry. -/
lemma get_embeddings_eq (m : List ℚ → List FVal) (X : List (List ℚ))
    (nc : Int) (b : ℕ) (hb : b ≠ 0) :
    get_embeddings m X nc b =
      if (resolveNumCells X nc).toNat = 0 then
        Except.error "No valid cells detected."
      else if ((X.take (divCeil (resolveNumCells X nc).toNat b * b)).map m).any
          (fun row => row.any FVal.isNan) then
        Except.error "NaN detected in embeddings."
      else
        Except.ok ((X.take (divCeil (resolveNumCells X nc).toNat b * b)).map m) := by
  unfold get_embeddings
  rw [if_neg hb]
  by_cases h0 : (resolveNumCells X nc).toNat = 0
  · have hc : divCeil (resolveNumCells X nc).toNat b = 0 :=
      (divCeil_eq_zero_iff _ _ hb).mpr h0
    rw [hc, if_pos h0]
    rfl
  · have hc : divCeil (resolveNumCells X nc).toNat b ≠ 0 := fun h =>
      h0 ((divCeil_eq_zero_iff _ _ hb).mp h)
    have hne : ((List.range' 0 (divCeil (resolveNumCells X nc).toNat b) b).map
        (fun i => ((X.drop i).take b).map m)).isEmpty = false := by
      rw [List.isEmpty_eq_false_iff_exists_mem]
      rcases Nat.exists_eq_succ_of_ne_zero hc with ⟨c, hcs⟩
      exact ⟨_, by rw [hcs, range'_cons]; exact List.mem_map_of_mem _ (List.mem_cons_self _ _)⟩
    simp only [hne, Bool.false_eq_true, if_false, if_neg h0, flatten_map_chunks]

/-! ### Helper lemmas about the multi-source index mapping -/

lemma data_idx_nil : data_idx [] = [] := rfl

lemma cell_idx_nil : cell_idx [] = [] := rfl

lemma data_idx_cons (r : ℕ) (rest : List ℕ) :
    data_idx (r :: rest) = List.replicate r 0 ++ (data_idx rest).map (· + 1) := by
  unfold data_idx
  rw [List.length_cons, List.range_succ_eq_map, List.flatMap_cons,
    List.flatMap_map, List.map_flatMap]
  simp [List.map_replicate]

lemma cell_idx_cons (r : ℕ) (rest : List ℕ) :
    cell_idx (r :: rest) = List.range r ++ cell_idx rest := by
  unfold cell_idx
  rw [List.length_cons, List.range_succ_eq_map, List.flatMap_cons,
    List.flatMap_map]
  simp

lemma data_idx_length (ncl : List ℕ) : (data_idx ncl).length = ncells ncl := by
  induction ncl with
  | nil => rfl
  | cons r rest ih => simp [data_idx_cons, ih, ncells]

lemma cell_idx_length (ncl : List ℕ) : (cell_idx ncl).length = ncells ncl := by
  induction ncl with
  | nil => rfl
  | cons r rest ih => simp [cell_idx_cons, ih, ncells]

lemma index_mapping_aux (ncl : List ℕ) :
    ∀ idx, idx < ncells ncl →
      (data_idx ncl).getD idx 0 < ncl.length
      ∧ (cell_idx ncl).getD idx 0 < ncl.getD ((data_idx ncl).getD idx 0) 0
      ∧ (ncl.take ((data_idx ncl).getD idx 0)).sum + (cell_idx ncl).getD idx 0 = idx := by
  induction ncl with
  | nil => intro idx h; simp [ncells] at h
  | cons r rest ih =>
      intro idx h
      rw [data_idx_cons, cell_idx_cons]
      by_cases hir : idx < r
      · rw [List.getD_append _ _ _ _ (by simpa using hir),
          List.getD_append _ _ _ _ (by simpa using hir),
          List.getD_eq_getElem _ _ (by simpa using hir),
          List.getD_eq_getElem _ _ (by simpa using hir),
          List.getElem_replicate, List.getElem_range]
        exact ⟨by simp, by simpa using hir, by simp⟩
      · push_neg at hir
        rw [List.getD_append_right _ _ _ _ (by simpa using hir),
          List.getD_append_right _ _ _ _ (by simpa using hir),
          List.length_replicate, List.length_range]
        have hlt : idx - r < ncells rest := by
          simp only [ncells, List.sum_cons] at h ⊢
          omega
        obtain ⟨h1, h2, h3⟩ := ih (idx - r) hlt
        have hmap : ((data_idx rest).map (· + 1)).getD (idx - r) 0
            = (data_idx rest).getD (idx - r) 0 + 1 := by
          rw [List.getD_eq_getElem _ _ (by rw [List.length_map, data_idx_length]; exact hlt),
            List.getElem_map,
            List.getD_eq_getElem _ _ (by rw [data_idx_length]; exact hlt)]
        rw [hmap, List.length_cons, List.getD_cons_succ, List.take_succ_cons,
          List.sum_cons]
        exact ⟨by omega, h2, by omega⟩

/-! ### Claim theorems -/

/-- C1 (counterexample): the NaN check of `get_embeddings` does not catch
infinities — an encoder producing an infinite entry returns that entry
instead of raising the numerical-instability error, refuting the claim that
any non-finite (NaN or Inf) entry fails the call. -/
theorem get_embeddings_inf_passes_nan_check :
    get_embeddings (fun _ => [FVal.inf]) [[0]] (-1) 10000 = Except.ok [[FVal.inf]]
    ∧ (Except.ok [[FVal.inf]] : Except String (List (List FVal)))
        ≠ Except.error "NaN detected in embeddings." :=
  ⟨rfl, fun h => Except.noConfusion h⟩

/-- C1 (amended): for a nonzero buffer size and a positive resolved row
count, `get_embeddings` fails with the numerical-instability error iff some
produced embedding entry is NaN (`np.isnan`); if no entry is NaN the
embedding array is returned — even when it contains infinities. -/
theorem get_embeddings_nan_only (m : List ℚ → List FVal) (X : List (List ℚ))
    (num_cells : Int) (b : ℕ) (hb : b ≠ 0)
    (hn : (resolveNumCells X num_cells).toNat ≠ 0) :
    (get_embeddings m X num_cells b = Except.error "NaN detected in embeddings."
      ↔ ((X.take (divCeil (resolveNumCells X num_cells).toNat b * b)).map m).any
          (fun row => row.any FVal.isNan) = true)
    ∧ (((X.take (divCeil (resolveNumCells X num_cells).toNat b * b)).map m).any
          (fun row => row.any FVal.isNan) = false
        → get_embeddings m X num_cells b
            = Except.ok ((X.take (divCeil (resolveNumCells X num_cells).toNat b * b)).map m)) := by
  rw [get_embeddings_eq m X num_cells b hb, if_neg hn]
  split_ifs with hany
  · exact ⟨iff_of_true rfl hany,
      fun hf => by rw [hf] at hany; exact Bool.noConfusion hany⟩
  · have hf : ((X.take (divCeil (resolveNumCells X num_cells).toNat b * b)).map m).any
        (fun row => row.any FVal.isNan) = false := by simpa using hany
    refine ⟨?_, fun _ => rfl⟩
    rw [hf]
    exact Iff.intro (fun h => nomatch h) (fun h => nomatch h)

/-- C1 witness: an all-finite mock encoder on a one-row matrix returns its
embedding with no error. -/
theorem get_embeddings_nan_only_witness :
    get_embeddings (fun _ => [FVal.fin 0]) [[0]] (-1) 10000
      = Except.ok [[FVal.fin 0]] :=
  (get_embeddings_nan_only (fun _ => [FVal.fin 0]) [[0]] (-1) 10000
    (by decide) (by decide)).2 rfl

/-- C7: `get_embeddings` with `num_cells = -1` behaves identically to
`num_cells = R` on an `R`-row input, and any successful result embeds
exactly the `R` input rows. -/
theorem get_embeddings_sentinel_all_rows (m : List ℚ → List FVal)
    (X : List (List ℚ)) (b : ℕ) :
    get_embeddings m X (-1) b = get_embeddings m X (X.length : Int) b
    ∧ (b ≠ 0 → ∀ e, get_embeddings m X (-1) b = Except.ok e → e = X.map m) := by
  have hcast : (X.length : Int) ≠ -1 := by omega
  have hres : resolveNumCells X (-1) = resolveNumCells X (X.length : Int) := by
    unfold resolveNumCells
    rw [if_pos rfl, if_neg hcast]
  have heq : get_embeddings m X (-1) b = get_embeddings m X (X.length : Int) b := by
    unfold get_embeddings
    rw [hres]
  refine ⟨heq, fun hb e he => ?_⟩
  rw [heq, get_embeddings_eq m X (X.length : Int) b hb] at he
  have hlen : (resolveNumCells X (X.length : Int)).toNat = X.length := by
    rw [← hres]
    unfold resolveNumCells
    rw [if_pos rfl]
    exact Int.toNat_natCast _
  by_cases h0 : (resolveNumCells X (X.length : Int)).toNat = 0
  · rw [if_pos h0] at he
    exact nomatch he
  · rw [if_neg h0] at he
    have htake : X.take (divCeil (resolveNumCells X (X.length : Int)).toNat b * b) = X := by
      apply List.take_of_length_le
      rw [hlen]
      calc X.length ≤ b * divCeil X.length b := le_mul_divCeil X.length b hb
        _ = divCeil X.length b * b := Nat.mul_comm _ _
    rw [htake] at he
    split_ifs at he with hany
    exact (Except.ok.inj he).symm

/-- C7 witness: on a one-row matrix with buffer size 3, the sentinel call
equals the explicit-count call and embeds exactly that row. -/
theorem get_embeddings_sentinel_all_rows_witness :
    get_embeddings (fun _ => [FVal.fin 1]) [[0]] (-1) 3
      = get_embeddings (fun _ => [FVal.fin 1]) [[0]] (([[0]] : List (List ℚ)).length : Int) 3
    ∧ ([[FVal.fin 1]] : List (List FVal)) = [[(0 : ℚ)]].map (fun _ => [FVal.fin 1]) :=
  ⟨(get_embeddings_sentinel_all_rows (fun _ => [FVal.fin 1]) [[0]] 3).1,
   (get_embeddings_sentinel_all_rows (fun _ => [FVal.fin 1]) [[0]] 3).2
     (by decide) [[FVal.fin 1]] rfl⟩

/-- C8 (counterexample): a zero-row matrix with an explicit positive
`num_cells` processes zero rows yet returns an empty embedding instead of
raising the empty-input error, refuting the claim for that case. -/
theorem get_embeddings_empty_matrix_positive_count :
    get_embeddings (fun _ => []) [] 1 1 = Except.ok []
    ∧ (Except.ok [] : Except String (List (List FVal)))
        ≠ Except.error "No valid cells detected." :=
  ⟨rfl, fun h => Except.noConfusion h⟩

/-- C8 (amended): for a nonzero buffer size, `get_embeddings` fails with
the empty-input error exactly when the resolved row count is at most zero
(so that no chunk is formed); a zero-row matrix with a positive requested
count instead returns an empty embedding. -/
theorem get_embeddings_empty_input_iff (m : List ℚ → List FVal)
    (X : List (List ℚ)) (num_cells : Int) (b : ℕ) (hb : b ≠ 0) :
    get_embeddings m X num_cells b = Except.error "No valid cells detected."
      ↔ resolveNumCells X num_cells ≤ 0 := by
  rw [get_embeddings_eq m X num_cells b hb]
  by_cases h0 : (resolveNumCells X num_cells).toNat = 0
  · rw [if_pos h0]
    exact iff_of_true rfl (Int.toNat_eq_zero.mp h0)
  · rw [if_neg h0]
    have hpos : ¬resolveNumCells X num_cells ≤ 0 := fun hle =>
      h0 (Int.toNat_eq_zero.mpr hle)
    split_ifs with hany
    · exact iff_of_false
        (fun h => absurd (Except.error.inj h) (by decide)) hpos
    · exact iff_of_false (fun h => nomatch h) hpos

/-- C8 witness: requesting zero cells raises the empty-input error. -/
theorem get_embeddings_empty_input_iff_witness :
    get_embeddings (fun _ => [FVal.fin 0]) [[0]] 0 5
      = Except.error "No valid cells detected." :=
  (get_embeddings_empty_input_iff (fun _ => [FVal.fin 0]) [[0]] 0 5
    (by decide)).mpr (by decide)

/-- C3: the multi-source view's parallel index sequences both have length
equal to the total row count, and every global index resolves to a valid
store index and local row offset obtained by flattening per-store row
ranges in list order. -/
theorem scDatasetFromList_index_mapping (ncl : List ℕ) :
    (data_idx ncl).length = ncells ncl
    ∧ (cell_idx ncl).length = ncells ncl
    ∧ ∀ idx, idx < ncells ncl →
        (data_idx ncl).getD idx 0 < ncl.length
        ∧ (cell_idx ncl).getD idx 0 < ncl.getD ((data_idx ncl).getD idx 0) 0
        ∧ (ncl.take ((data_idx ncl).getD idx 0)).sum + (cell_idx ncl).getD idx 0 = idx :=
  ⟨data_idx_length ncl, cell_idx_length ncl, index_mapping_aux ncl⟩

/-- C3 witness: for row counts `[3, 5, 2]`, global index 4 resolves to a
valid store and offset (store 1, offset 1, since `3 + 1 = 4`). -/
theorem scDatasetFromList_index_mapping_witness :
    (data_idx [3, 5, 2]).getD 4 0 < ([3, 5, 2] : List ℕ).length
    ∧ (cell_idx [3, 5, 2]).getD 4 0
        < ([3, 5, 2] : List ℕ).getD ((data_idx [3, 5, 2]).getD 4 0) 0
    ∧ (([3, 5, 2] : List ℕ).take ((data_idx [3, 5, 2]).getD 4 0)).sum
        + (cell_idx [3, 5, 2]).getD 4 0 = 4 :=
  (scDatasetFromList_index_mapping [3, 5, 2]).2.2 4 (by decide)

/-- C4 (counterexample): `get_nearest_neighbors` does mutate the index
state — it sets the search-breadth parameter `ef` before querying, so the
object after a query with a different `ef` is not the object before it. -/
theorem get_nearest_neighbors_sets_ef :
    get_nearest_neighbors (fun _ _ _ => ([], []))
        ⟨some ⟨"cosine", 2, [[1, 0]], 100⟩, 2⟩ [] 50 7
      = Except.ok (⟨some ⟨"cosine", 2, [[1, 0]], 7⟩, 2⟩, ([], []))
    ∧ (⟨some ⟨"cosine", 2, [[1, 0]], 7⟩, 2⟩ : CellEmbedding)
        ≠ ⟨some ⟨"cosine", 2, [[1, 0]], 100⟩, 2⟩ := by
  refine ⟨rfl, ?_⟩
  simp

/-- C4 (amended): a query leaves the index contents untouched — the stored
items, distance space and dimensionality are unchanged and the index stays
loaded; the only state change is setting the search-breadth parameter
`ef`. -/
theorem get_nearest_neighbors_only_sets_ef
    (query : HnswIndex → List (List ℚ) → ℕ → List (List ℕ) × List (List ℚ))
    (s : CellEmbedding) (idx : HnswIndex) (e : List (List ℚ)) (k ef : ℕ)
    (h : s.knn = some idx) :
    get_nearest_neighbors query s e k ef
      = Except.ok ({ s with knn := some { idx with ef := ef } },
                   query { idx with ef := ef } e k)
    ∧ ({ idx with ef := ef } : HnswIndex).items = idx.items
    ∧ ({ idx with ef := ef } : HnswIndex).space = idx.space
    ∧ ({ idx with ef := ef } : HnswIndex).dim = idx.dim
    ∧ ({ s with knn := some { idx with ef := ef } } : CellEmbedding).latent_dim
        = s.latent_dim := by
  refine ⟨?_, rfl, rfl, rfl, rfl⟩
  unfold get_nearest_neighbors
  rw [h]

/-- C4 witness: querying a loaded index succeeds and only updates `ef`. -/
theorem get_nearest_neighbors_only_sets_ef_witness :
    get_nearest_neighbors (fun _ _ _ => ([], []))
        ⟨some ⟨"cosine", 3, [[2, 2]], 100⟩, 3⟩ [] 50 9
      = Except.ok (⟨some ⟨"cosine", 3, [[2, 2]], 9⟩, 3⟩, ([], [])) :=
  (get_nearest_neighbors_only_sets_ef (fun _ _ _ => ([], []))
    ⟨some ⟨"cosine", 3, [[2, 2]], 100⟩, 3⟩ ⟨"cosine", 3, [[2, 2]], 100⟩ [] 50 9 rfl).1

/-- C5: with no index loaded, `get_nearest_neighbors` fails with the
not-initialized error directing the caller to run `build_knn`, and the
result does not depend on the (absent) index query at all. -/
theorem get_nearest_neighbors_requires_index
    (query query2 : HnswIndex → List (List ℚ) → ℕ → List (List ℕ) × List (List ℚ))
    (s : CellEmbedding) (e : List (List ℚ)) (k ef : ℕ) (h : s.knn = none) :
    get_nearest_neighbors query s e k ef
      = Except.error "kNN is not initialized. If no kNN index file is found, run the method build_knn."
    ∧ get_nearest_neighbors query s e k ef = get_nearest_neighbors query2 s e k ef := by
  unfold get_nearest_neighbors
  rw [h]
  exact ⟨rfl, rfl⟩

/-- C5 witness: a fresh adapter with unset index errors on query. -/
theorem get_nearest_neighbors_requires_index_witness :
    get_nearest_neighbors (fun _ _ _ => ([], [])) ⟨none, 8⟩ [[1]] 50 100
      = Except.error "kNN is not initialized. If no kNN index file is found, run the method build_knn." :=
  (get_nearest_neighbors_requires_index (fun _ _ _ => ([], []))
    (fun _ _ _ => ([[0]], [[0]])) ⟨none, 8⟩ [[1]] 50 100 rfl).1

/-- C6: loading from a path that is not an existing file returns normally,
prints the missing-index warning, and leaves `knn` unset. -/
theorem load_knn_index_missing_file (isfile : String → Bool)
    (loadIdx : String → List (List ℚ)) (s : CellEmbedding) (knn_file : String)
    (h : isfile knn_file = false) :
    load_knn_index isfile loadIdx s knn_file
      = ({ s with knn := none }, ["Warning: No KNN index found at " ++ knn_file]) := by
  simp [load_knn_index, h]

/-- C6 witness: a missing file leaves the index unset with a warning. -/
theorem load_knn_index_missing_file_witness :
    load_knn_index (fun _ => false) (fun _ => [])
        ⟨some ⟨"cosine", 3, [], 10⟩, 3⟩ "absent.bin"
      = (⟨none, 3⟩, ["Warning: No KNN index found at absent.bin"]) :=
  load_knn_index_missing_file (fun _ => false) (fun _ => [])
    ⟨some ⟨"cosine", 3, [], 10⟩, 3⟩ "absent.bin" rfl

/-- C9: a failed load discards a previously loaded index — after
`load_knn_index` on a missing path, `knn` is unset and a subsequent query
fails with the not-initialized error. -/
theorem load_knn_index_discards_prior_index (isfile : String → Bool)
    (loadIdx : String → List (List ℚ))
    (query : HnswIndex → List (List ℚ) → ℕ → List (List ℕ) × List (List ℚ))
    (s : CellEmbedding) (idx : HnswIndex) (knn_file : String)
    (e : List (List ℚ)) (k ef : ℕ)
    (_hprior : s.knn = some idx) (h : isfile knn_file = false) :
    (load_knn_index isfile loadIdx s knn_file).1.knn = none
    ∧ get_nearest_neighbors query (load_knn_index isfile loadIdx s knn_file).1 e k ef
        = Except.error "kNN is not initialized. If no kNN index file is found, run the method build_knn." := by
  have h1 : (load_knn_index isfile loadIdx s knn_file).1.knn = none := by
    simp [load_knn_index, h]
  refine ⟨h1, ?_⟩
  unfold get_nearest_neighbors
  rw [h1]

/-- C9 witness: a loaded adapter, after a failed re-load, rejects queries. -/
theorem load_knn_index_discards_prior_index_witness :
    (load_knn_index (fun _ => false) (fun _ => [])
        ⟨some ⟨"cosine", 4, [[2]], 10⟩, 4⟩ "gone.bin").1.knn = none
    ∧ get_nearest_neighbors (fun _ _ _ => ([], []))
        (load_knn_index (fun _ => false) (fun _ => [])
          ⟨some ⟨"cosine", 4, [[2]], 10⟩, 4⟩ "gone.bin").1 [] 3 5
        = Except.error "kNN is not initialized. If no kNN index file is found, run the method build_knn." :=
  load_knn_index_discards_prior_index (fun _ => false) (fun _ => [])
    (fun _ _ _ => ([], [])) ⟨some ⟨"cosine", 4, [[2]], 10⟩, 4⟩
    ⟨"cosine", 4, [[2]], 10⟩ "gone.bin" [] 3 5 rfl rfl

/-- C10: for equal-length categorical sequences and observed categories,
`two_way_weighting` gives the reciprocal co-occurrence count for
co-occurring pairs and weight 0 (never infinity) for pairs that never
co-occur; all weights are nonnegative. -/
theorem two_way_weighting_spec (vec1 vec2 : List String) (p : String × String)
    (_hlen : vec1.length = vec2.length) (_h1 : p.1 ∈ vec1) (_h2 : p.2 ∈ vec2) :
    (0 < crosstabCount vec1 vec2 p →
        two_way_weighting vec1 vec2 p = 1 / (crosstabCount vec1 vec2 p : ℚ))
    ∧ (crosstabCount vec1 vec2 p = 0 → two_way_weighting vec1 vec2 p = 0)
    ∧ 0 ≤ two_way_weighting vec1 vec2 p := by
  unfold two_way_weighting
  refine ⟨fun hpos => ?_, fun hz => ?_, ?_⟩
  · rw [if_neg (by omega)]
  · rw [if_pos hz]
  · split_ifs with h
    · exact le_refl 0
    · positivity

/-- C10 witness: for `vec1 = ["a","b"]`, `vec2 = ["x","y"]`, the pair
`("a","x")` co-occurs once and gets weight 1. -/
theorem two_way_weighting_spec_witness :
    two_way_weighting ["a", "b"] ["x", "y"] ("a", "x")
      = 1 / (crosstabCount ["a", "b"] ["x", "y"] ("a", "x") : ℚ)
    ∧ 0 ≤ two_way_weighting ["a", "b"] ["x", "y"] ("a", "x") :=
  ⟨(two_way_weighting_spec ["a", "b"] ["x", "y"] ("a", "x")
      rfl (by decide) (by decide)).1 (by decide),
   (two_way_weighting_spec ["a", "b"] ["x", "y"] ("a", "x")
      rfl (by decide) (by decide)).2.2⟩

/-- C2 (counterexample): a study occurring exactly once has `ln 1 = 0` in
the weight denominator, so the produced weight is the reciprocal of zero —
not a finite positive real (the idealised real value is 0; the float
implementation divides by zero). -/
theorem get_sampler_weights_single_study_log_zero :
    get_sampler_weights_with_studies ["a"] ["s"] = [0]
    ∧ Real.log ((List.count "s" ["s"] : ℕ) : ℝ) = 0 := by
  constructor
  · simp [get_sampler_weights_with_studies, List.range_succ, Real.log_one]
  · norm_num +decide [List.count_cons, Real.log_one]

/-- C2 (amended): without studies, row `i` gets weight
`1 / frequency(labels[i])`, a finite positive rational; with studies, row
`i` gets `1 / frequency(labels[i]) / ln(frequency(studies[i]))`, which is
positive (and the denominator nonzero) provided every study value occurs at
least twice. -/
theorem get_sampler_weights_spec (labels studies : List String) (i : ℕ)
    (hi : i < labels.length) (hlen : studies.length = labels.length) :
    (get_sampler_weights labels).getD i 0
        = 1 / (labels.count (labels.getD i "") : ℚ)
    ∧ 0 < (get_sampler_weights labels).getD i 0
    ∧ (get_sampler_weights_with_studies labels studies).getD i 0
        = 1 / (labels.count (labels.getD i "") : ℝ)
            / Real.log ((studies.count (studies.getD i "") : ℕ) : ℝ)
    ∧ ((∀ s ∈ studies, 2 ≤ studies.count s) →
        0 < (get_sampler_weights_with_studies labels studies).getD i 0) := by
  have hmem : labels.getD i "" ∈ labels := by
    rw [List.getD_eq_getElem labels "" hi]
    exact List.getElem_mem hi
  have hcount : 0 < labels.count (labels.getD i "") := List.count_pos_iff.mpr hmem
  have heq1 : (get_sampler_weights labels).getD i 0
      = 1 / (labels.count (labels.getD i "") : ℚ) := by
    unfold get_sampler_weights
    rw [List.getD_eq_getElem _ _ (by simpa using hi), List.getElem_map,
      List.getD_eq_getElem labels "" hi]
  have heq2 : (get_sampler_weights_with_studies labels studies).getD i 0
      = 1 / (labels.count (labels.getD i "") : ℝ)
        / Real.log ((studies.count (studies.getD i "") : ℕ) : ℝ) := by
    unfold get_sampler_weights_with_studies
    rw [List.getD_eq_getElem _ _ (by simpa using hi), List.getElem_map,
      List.getElem_range]
  refine ⟨heq1, ?_, heq2, fun hall => ?_⟩
  · rw [heq1]
    exact one_div_pos.mpr (by exact_mod_cast hcount)
  · have hsmem : studies.getD i "" ∈ studies := by
      rw [List.getD_eq_getElem studies "" (by omega)]
      exact List.getElem_mem (by omega)
    have hs2 : 2 ≤ studies.count (studies.getD i "") := hall _ hsmem
    rw [heq2]
    apply div_pos (one_div_pos.mpr (by exact_mod_cast hcount))
    exact Real.log_pos (by exact_mod_cast hs2)

/-- C2 witness: labels `["a","a"]` with studies `["s","s"]` give row 0 a
positive weight in both modes. -/
theorem get_sampler_weights_spec_witness :
    0 < (get_sampler_weights ["a", "a"]).getD 0 0
    ∧ 0 < (get_sampler_weights_with_studies ["a", "a"] ["s", "s"]).getD 0 0 :=
  ⟨(get_sampler_weights_spec ["a", "a"] ["s", "s"] 0 (by decide) rfl).2.1,
   (get_sampler_weights_spec ["a", "a"] ["s", "s"] 0 (by decide) rfl).2.2.2
     (by decide)⟩

end Scimilarity
